import Mathlib

/-!
Verification of the dictation practice session core.

This file gives a shallow embedding, in Lean 4, of the parts of the
`dictation` repository that the specification's claims are about:

* the diff engine `formatWordDiff` (src/unnamed/part_000);
* the YAML configuration loader `loadConfig` (src/config.go);
* the TUI session state machine `appModel` together with its
  `Update` / `validateInput` / `startNextWord` / `handleDialogClose`
  transition logic (src/tui.go), and the Bubble Tea event loop that
  drives it (messages produced by returned commands are delivered later).

Strings are modelled by Lean `String`; Go converts a string to `[]rune`
before indexing, which corresponds to `String.data : List Char`
(Unicode code points).  Rendering (lipgloss styling, the viewport) and
the i18n message catalogue are presentation concerns: styling wraps the
produced characters without changing them, and the localizer is treated
as the black box the spec declares it to be, represented here by the
identity on message keys.
-/

namespace Dictation

/-! ### DiffEngine: `formatWordDiff` (src/unnamed/part_000)

The Go function builds three aligned lines (user input, correct word,
difference markers) by iterating positions `0 .. maxLen-1` over the two
rune slices.  Each position contributes exactly one rune to each of the
three lines; the lipgloss `Render` calls only wrap those runes in color
escape codes, and the surrounding labels are fixed per line, so the
positional content of the three lines is fully captured by the record
below. -/

/-- The three aligned lines produced by `formatWordDiff`, one `Char`
per position (colour styling abstracted away). -/
structure DiffRow where
  userLine : List Char
  correctLine : List Char
  markerLine : List Char
deriving DecidableEq

/-- One position of the diff loop body of `formatWordDiff`:
the (possibly padded) user rune, the (possibly padded) correct rune and
the marker character for position `i`.  Mirrors the loop body at
src/unnamed/part_000 lines 66-106: missing positions are padded with a
blank, and a position matches only when both runes exist and are equal
(case-sensitive). -/
def diffCell (userRunes correctRunes : List Char) (i : Nat) : Char × Char × Char :=
  let userExists := decide (i < userRunes.length)
  let correctExists := decide (i < correctRunes.length)
  let userChar := userRunes.getD i ' '
  let correctChar := correctRunes.getD i ' '
  let isMatch := (userChar == correctChar) && userExists && correctExists
  (userChar, correctChar, if isMatch then ' ' else '^')

/-- Shallow embedding of `formatWordDiff(userInput, correctWord, localizer)`
(src/unnamed/part_000).  The Go code converts both strings to rune
slices, computes `maxLen` as the larger of the two rune lengths and
iterates positions `0 .. maxLen-1`. -/
def formatWordDiff (userInput correctWord : String) : DiffRow :=
  let userRunes := userInput.data
  let correctRunes := correctWord.data
  let maxLen := max userRunes.length correctRunes.length
  let cells := (List.range maxLen).map (diffCell userRunes correctRunes)
  { userLine := cells.map (fun c => c.1)
    correctLine := cells.map (fun c => c.2.1)
    markerLine := cells.map (fun c => c.2.2) }

theorem formatWordDiff_userLine_length (a b : String) :
    (formatWordDiff a b).userLine.length = max a.data.length b.data.length := by
  simp [formatWordDiff]

theorem formatWordDiff_correctLine_length (a b : String) :
    (formatWordDiff a b).correctLine.length = max a.data.length b.data.length := by
  simp [formatWordDiff]

theorem formatWordDiff_markerLine_length (a b : String) :
    (formatWordDiff a b).markerLine.length = max a.data.length b.data.length := by
  simp [formatWordDiff]

theorem formatWordDiff_markerLine_eq (a b : String) :
    (formatWordDiff a b).markerLine =
      (List.range (max a.data.length b.data.length)).map
        (fun i => (diffCell a.data b.data i).2.2) := by
  simp [formatWordDiff, List.map_map, Function.comp_def]

theorem formatWordDiff_markerLine_getD (a b : String) (i : Nat)
    (h : i < max a.data.length b.data.length) :
    (formatWordDiff a b).markerLine.getD i ' ' =
      (diffCell a.data b.data i).2.2 := by
  rw [formatWordDiff_markerLine_eq, List.getD_eq_getElem?_getD,
    List.getElem?_map, List.getElem?_range h]
  rfl

theorem diffCell_marker_of_missing (u c : List Char) (i : Nat)
    (h : u.length ≤ i ∨ c.length ≤ i) : (diffCell u c i).2.2 = '^' := by
  unfold diffCell
  rcases h with h | h
  · simp [Nat.not_lt.mpr h]
  · simp [Nat.not_lt.mpr h]

/-- C2: for all strings `a` and `b` (including empty ones), the three
lines of the diff have exactly `max (len a) (len b)` positions, lengths
counted in Unicode code points; the function is total (a Lean `def`)
and two empty strings give the empty diff. -/
theorem formatWordDiff_line_lengths (a b : String) :
    (formatWordDiff a b).userLine.length = max a.data.length b.data.length ∧
    (formatWordDiff a b).correctLine.length = max a.data.length b.data.length ∧
    (formatWordDiff a b).markerLine.length = max a.data.length b.data.length ∧
    formatWordDiff "" "" = ⟨[], [], []⟩ := by
  refine ⟨formatWordDiff_userLine_length a b,
    formatWordDiff_correctLine_length a b,
    formatWordDiff_markerLine_length a b, ?_⟩
  rfl

/-- C3: every position at or beyond the code-point length of at least
one of the two strings is marked as a mismatch: a padded blank never
counts as matching. -/
theorem formatWordDiff_padding_mismatch (a b : String) (i : Nat)
    (hlt : i < max a.data.length b.data.length)
    (hmiss : a.data.length ≤ i ∨ b.data.length ≤ i) :
    (formatWordDiff a b).markerLine.getD i ' ' = '^' := by
  rw [formatWordDiff_markerLine_getD a b i hlt]
  exact diffCell_marker_of_missing a.data b.data i hmiss

/-- Witness for C3 at a concrete input: in `formatWordDiff "Hau" "Haus"`
position 3 lies beyond the length of `"Hau"` and is marked `'^'`. -/
theorem formatWordDiff_padding_mismatch_witness :
    (3 < max "Hau".data.length "Haus".data.length ∧ "Hau".data.length ≤ 3) ∧
    (formatWordDiff "Hau" "Haus").markerLine.getD 3 ' ' = '^' :=
  ⟨by decide,
   formatWordDiff_padding_mismatch "Hau" "Haus" 3 (by decide) (Or.inl (by decide))⟩

/-- C4: diffing a word against itself produces only match indicators
(blanks): the marker line is all blanks and contains no `'^'`. -/
theorem formatWordDiff_self (w : String) :
    (formatWordDiff w w).markerLine = List.replicate w.data.length ' ' ∧
    '^' ∉ (formatWordDiff w w).markerLine := by
  have hrep : (formatWordDiff w w).markerLine = List.replicate w.data.length ' ' := by
    rw [List.eq_replicate_iff]
    constructor
    · simpa using formatWordDiff_markerLine_length w w
    · intro c hc
      rw [formatWordDiff_markerLine_eq, Nat.max_self] at hc
      simp only [List.mem_map, List.mem_range] at hc
      obtain ⟨i, hi, hcell⟩ := hc
      have hi' : i < w.length := hi
      have : (diffCell w.data w.data i).2.2 = ' ' := by
        unfold diffCell
        simp [hi, hi']
      rw [← hcell, this]
  refine ⟨hrep, ?_⟩
  rw [hrep]
  intro hmem
  have := List.eq_of_mem_replicate hmem
  simp at this

/-! ### Configuration loading: `loadConfig` (src/config.go)

`loadConfig` composes two external effects — reading the file
(`os.ReadFile`) and YAML parsing (`yaml.Unmarshal`) — with its own
validation.  The effects are abstracted as parameters: `read` is the
outcome of reading the file and `unmarshal` the outcome of parsing its
contents, each either an error or a value, exactly the information the
Go code branches on. -/

/-- The YAML configuration structure (src/config.go `Config`). -/
structure Config where
  language : String
  words : List String
deriving DecidableEq

/-- Shallow embedding of `loadConfig` (src/config.go lines 21-51).
`α` is the type of raw file contents (`[]byte` in Go). -/
def loadConfig (α : Type) (read : Except String α)
    (unmarshal : α → Except String Config) : Except String Config :=
  match read with
  | Except.error e => Except.error ("failed to read config file: " ++ e)
  | Except.ok data =>
    match unmarshal data with
    | Except.error e => Except.error ("failed to parse YAML: " ++ e)
    | Except.ok config =>
      if config.words.length = 0 then
        Except.error "no words found in config file"
      else if config.language = "" then
        Except.ok { config with language := "en" }
      else
        Except.ok config

/-- C9: `loadConfig` returns an error exactly when the file is
unreadable, the YAML fails to parse, or the parsed word list is empty;
and every successfully returned configuration has a non-empty word
list, so a session never starts with zero words. -/
theorem loadConfig_c9 (α : Type) (read : Except String α)
    (unmarshal : α → Except String Config) :
    (∀ cfg, loadConfig α read unmarshal = Except.ok cfg → cfg.words ≠ []) ∧
    ((∃ e, loadConfig α read unmarshal = Except.error e) ↔
      (∃ e, read = Except.error e) ∨
      (∃ d e, read = Except.ok d ∧ unmarshal d = Except.error e) ∨
      (∃ d cfg, read = Except.ok d ∧ unmarshal d = Except.ok cfg ∧
        cfg.words = [])) := by
  constructor
  · intro cfg hok
    cases hr : read with
    | error e => simp [loadConfig, hr] at hok
    | ok d =>
      cases hu : unmarshal d with
      | error e => simp [loadConfig, hr, hu] at hok
      | ok c =>
        simp only [loadConfig, hr, hu] at hok
        intro hnil
        split_ifs at hok with h0 hl
        · apply h0
          have h1 : ({ language := "en", words := c.words } : Config) = cfg :=
            Except.ok.inj hok
          have h2 : c.words = cfg.words := by rw [← h1]
          simp [h2, hnil]
        · apply h0
          have h1 : c = cfg := Except.ok.inj hok
          rw [h1]
          simp [hnil]
  · cases hr : read with
    | error e => simp [loadConfig, hr]
    | ok d =>
      cases hu : unmarshal d with
      | error e => simp [loadConfig, hr, hu]
      | ok c =>
        simp only [loadConfig, hr, hu]
        split_ifs with h0 hl
        · simp only [List.length_eq_zero] at h0
          simp [hu, h0]
        · simp only [List.length_eq_zero] at h0
          simp [hu, h0]
        · simp only [List.length_eq_zero] at h0
          simp [hu, h0]

/-- Witness for C9 at concrete inputs: a parse producing the single
word `"Haus"` loads successfully (with a non-empty word list), and a
parse producing an empty word list is rejected. -/
theorem loadConfig_c9_witness :
    (∀ cfg, loadConfig Unit (Except.ok ())
        (fun _ => Except.ok ⟨"de", ["Haus"]⟩) = Except.ok cfg →
      cfg.words ≠ []) ∧
    (∃ e, loadConfig Unit (Except.ok ())
        (fun _ => Except.ok ⟨"de", []⟩) = Except.error e) :=
  ⟨(loadConfig_c9 Unit (Except.ok ()) (fun _ => Except.ok ⟨"de", ["Haus"]⟩)).1,
   (loadConfig_c9 Unit (Except.ok ()) (fun _ => Except.ok ⟨"de", []⟩)).2.mpr
     (Or.inr (Or.inr ⟨(), ⟨"de", []⟩, rfl, rfl, rfl⟩))⟩

/-! ### Go whitespace trimming (`strings.TrimSpace`)

`Update` trims the submitted text with `strings.TrimSpace`, which
removes leading and trailing characters satisfying `unicode.IsSpace`
(the Unicode White_Space property). -/

/-- Go's `unicode.IsSpace`: the Unicode White_Space property. -/
def goIsSpace (c : Char) : Bool :=
  c == '\t' || c == '\n' || c.toNat == 0xB || c.toNat == 0xC ||
  c == '\r' || c == ' ' || c.toNat == 0x85 || c.toNat == 0xA0 ||
  c.toNat == 0x1680 ||
  (decide (0x2000 ≤ c.toNat) && decide (c.toNat ≤ 0x200A)) ||
  c.toNat == 0x2028 || c.toNat == 0x2029 || c.toNat == 0x202F ||
  c.toNat == 0x205F || c.toNat == 0x3000

/-- Go's `strings.TrimSpace`: drop White_Space characters from both
ends of the string. -/
def goTrimSpace (s : String) : String :=
  ⟨((s.data.dropWhile goIsSpace).reverse.dropWhile goIsSpace).reverse⟩

/-! ### The TUI session state machine (src/tui.go)

The model below embeds the application-state part of `appModel` and its
transition logic.  Omitted relative to the Go struct: the
`viewport.Model` field and the `localizer` pointer.  The viewport is
pure presentation (its updates never touch application state), and the
localizer is the spec's black-box `translate` collaborator; it is
modelled by `localize`, the identity on message keys, so a localized
text is represented by its key.  Strings are modelled at rune level
(`String` = list of code points); the one place Go manipulates bytes
directly — backspace slicing off the final byte — is modelled as
dropping the final rune.

`dialogDiff` holds the rendered diff text in Go, with `""` meaning "no
diff"; it is modelled as `Option DiffRow` with `none` for `""`. -/

/-- Models the i18n localizer (black-box `translate`): the translated
text is represented by its message key. -/
def localize (messageID : String) : String := messageID

/-- Dialog visibility (src/tui.go `dialogState`). -/
inductive DialogState where
  | dialogHidden
  | dialogShowing
deriving DecidableEq

/-- Dialog kind (src/tui.go `dialogType`). -/
inductive DialogType where
  | dialogCorrect
  | dialogIncorrect
deriving DecidableEq

/-- The application state of src/tui.go `appModel` (viewport and
localizer omitted, see section comment). -/
structure appModel where
  ready : Bool
  width : Int
  height : Int
  words : List String
  originalCount : Nat
  currentWord : String
  wordIndex : Nat
  correctCount : Nat
  totalAttempts : Nat
  correctWords : List String
  language : String
  dialogState : DialogState
  dialogType : DialogType
  dialogMsg : String
  dialogDiff : Option DiffRow
  inputText : String
  showInput : Bool
  inputError : String
  waitingForAudio : Bool
deriving DecidableEq

/-- A key press as seen by `Update`: `str` is Bubble Tea's
`msg.String()` (e.g. `"enter"`, `" "`, `"tab"`, `"q"`, `"ctrl+c"`, or
the typed text), `runes` is `msg.Runes` (the typed runes, empty for
special keys). -/
structure KeyInput where
  str : String
  runes : List Char
deriving DecidableEq

/-- The messages `Update` handles (src/tui.go). -/
inductive Msg where
  | windowSizeMsg (w h : Int)
  | tuiRepeatAudioMsg
  | speakWordMsg
  | validationCompleteMsg (correct : Bool)
  | keyMsg (k : KeyInput)
deriving DecidableEq

/-- The commands the model returns to the Bubble Tea runtime.  `speak`
and `repeatAudio` invoke TTS and then produce `speakWordMsg` and
`tuiRepeatAudioMsg` respectively; `validationDone` produces
`validationCompleteMsg`; `quit` is `tea.Quit`; `none` is a nil
command. -/
inductive Cmd where
  | none
  | quit
  | speak (word language : String)
  | repeatAudio (word language : String)
  | validationDone (correct : Bool)
deriving DecidableEq

/-- `initialAppModel` (src/tui.go lines 93-105).  Fields not listed in
the Go literal take Go's zero values. -/
def initialAppModel (language : String) (words : List String) : appModel where
  ready := false
  width := 0
  height := 0
  words := words
  originalCount := words.length
  currentWord := ""
  wordIndex := 0
  correctCount := 0
  totalAttempts := 0
  correctWords := []
  language := language
  dialogState := DialogState.dialogHidden
  dialogType := DialogType.dialogCorrect
  dialogMsg := ""
  dialogDiff := Option.none
  inputText := ""
  showInput := false
  inputError := ""
  waitingForAudio := false

/-- `startNextWord` (src/tui.go lines 405-427): if the index has
reached the end of the (possibly grown) word list, quit; otherwise load
the word at the index, count the attempt, reset the input surface and
request speech. -/
def startNextWord (m : appModel) : appModel × Cmd :=
  if m.wordIndex ≥ m.words.length then
    (m, Cmd.quit)
  else
    let w := m.words.getD m.wordIndex ""
    ({ m with currentWord := w
              totalAttempts := m.totalAttempts + 1
              inputText := ""
              inputError := ""
              showInput := false
              waitingForAudio := true
              dialogState := DialogState.dialogHidden },
     Cmd.speak w m.language)

/-- `validateInput` (src/tui.go lines 355-384): exact comparison of the
(already trimmed) input with the current word; on success bump
`correctCount` and record the word, on failure build the diff; either
way open the dialog and clear the input surface. -/
def validateInput (m : appModel) (input : String) : appModel × Cmd :=
  let m :=
    if input = m.currentWord then
      { m with correctCount := m.correctCount + 1
               correctWords := m.correctWords ++ [m.currentWord]
               dialogType := DialogType.dialogCorrect
               dialogMsg := localize "Correct"
               dialogDiff := Option.none
               dialogState := DialogState.dialogShowing }
    else
      { m with dialogType := DialogType.dialogIncorrect
               dialogMsg := localize "IncorrectSpelling"
               dialogDiff := some (formatWordDiff input m.currentWord)
               dialogState := DialogState.dialogShowing }
  ({ m with inputText := ""
            inputError := ""
            showInput := false },
   Cmd.validationDone (input = m.currentWord))

/-- `handleDialogClose` (src/tui.go lines 433-448): hide the dialog,
re-queue the current word at the tail if it was answered incorrectly,
advance the index and start the next word. -/
def handleDialogClose (m : appModel) : appModel × Cmd :=
  let m := { m with dialogState := DialogState.dialogHidden
                    dialogMsg := ""
                    dialogDiff := Option.none }
  let m :=
    if m.dialogType = DialogType.dialogIncorrect then
      { m with words := m.words ++ [m.currentWord] }
    else m
  let m := { m with wordIndex := m.wordIndex + 1 }
  startNextWord m

/-- The `tea.KeyMsg` branch of `Update` (src/tui.go lines 153-208):
dialog interactions take priority, then the input surface, then the
global quit keys.  The final viewport update is presentation-only and
modelled as a no-op. -/
def updateKey (m : appModel) (k : KeyInput) : appModel × Cmd :=
  if m.dialogState = DialogState.dialogShowing then
    if k.str = "enter" ∨ k.str = " " then
      handleDialogClose m
    else if k.str = "q" ∨ k.str = "ctrl+c" then
      (m, Cmd.quit)
    else
      (m, Cmd.none)
  else if m.showInput then
    if k.str = "enter" then
      let input := goTrimSpace m.inputText
      if input = "" then
        ({ m with inputError := localize "ValidationError" }, Cmd.none)
      else
        validateInput m input
    else if k.str = "tab" then
      (m, Cmd.repeatAudio m.currentWord m.language)
    else if k.str = "backspace" then
      if m.inputText.length > 0 then
        ({ m with inputText := ⟨m.inputText.data.dropLast⟩
                  inputError := "" }, Cmd.none)
      else
        (m, Cmd.none)
    else if k.str = "q" ∨ k.str = "ctrl+c" then
      (m, Cmd.quit)
    else if k.runes.length > 0 then
      ({ m with inputText := m.inputText ++ ⟨k.runes⟩
                inputError := "" }, Cmd.none)
    else
      (m, Cmd.none)
  else if k.str = "q" ∨ k.str = "ctrl+c" then
    (m, Cmd.quit)
  else
    (m, Cmd.none)

/-- `Update` (src/tui.go lines 115-214). -/
def update (m : appModel) (msg : Msg) : appModel × Cmd :=
  match msg with
  | Msg.windowSizeMsg w h =>
    ({ m with width := w, height := h, ready := true }, Cmd.none)
  | Msg.tuiRepeatAudioMsg => (m, Cmd.none)
  | Msg.speakWordMsg =>
    ({ m with waitingForAudio := false, showInput := true }, Cmd.none)
  | Msg.validationCompleteMsg _ => (m, Cmd.none)
  | Msg.keyMsg k => updateKey m k

/-- `Init` (src/tui.go lines 108-112).  `Init` has a value receiver and
runs `startNextWord` on a local copy of the model, so only the returned
command survives: the state changes made by `startNextWord` are
discarded by the runtime, which keeps the unmodified initial model. -/
def initCmd (m : appModel) : Cmd := (startNextWord m).2

/-! ### The event loop

Bubble Tea feeds the model external events (key presses, terminal
resizes) at any time, and delivers the message produced by each command
the model returned at some later time, in no guaranteed order.  A
`Session` is the model together with the commands whose messages are
still outstanding; `Step` is one event-loop iteration. -/

/-- The message a command eventually produces, if any (`tea.Quit` and
nil commands produce none). -/
def cmdMsg : Cmd → Option Msg
  | Cmd.none => Option.none
  | Cmd.quit => Option.none
  | Cmd.speak _ _ => some Msg.speakWordMsg
  | Cmd.repeatAudio _ _ => some Msg.tuiRepeatAudioMsg
  | Cmd.validationDone b => some (Msg.validationCompleteMsg b)

/-- Messages that arrive from the environment rather than from a
returned command. -/
def externalMsg : Msg → Bool
  | Msg.windowSizeMsg _ _ => true
  | Msg.keyMsg _ => true
  | _ => false

/-- The model plus the commands whose messages are still pending. -/
structure Session where
  model : appModel
  pending : List Cmd
deriving DecidableEq

/-- Process one message: run `update` and add the returned command to
the pending pool. -/
def dispatch (m : appModel) (pend : List Cmd) (msg : Msg) : Session :=
  { model := (update m msg).1, pending := pend ++ [(update m msg).2] }

/-- One event-loop iteration: either an external event arrives, or the
message of one pending command is delivered (and that command leaves
the pool). -/
inductive Step : Session → Session → Prop where
  | external (s : Session) (msg : Msg) (h : externalMsg msg = true) :
      Step s (dispatch s.model s.pending msg)
  | deliver (s : Session) (c : Cmd) (msg : Msg) (hc : c ∈ s.pending)
      (hm : cmdMsg c = some msg) :
      Step s (dispatch s.model (s.pending.erase c) msg)

/-- Session start: the initial model of
`initialAppModel`, with the command returned by `Init` pending.
Because Go's `Init` has a value receiver and mutates only a local copy
(src/tui.go lines 108-112), the model itself is unchanged. -/
def initSession (language : String) (words : List String) : Session :=
  let m := initialAppModel language words
  { model := m, pending := [initCmd m] }

/-- States reachable from session start by any sequence of events. -/
def Reachable (language : String) (words : List String) (s : Session) : Prop :=
  Relation.ReflTransGen Step (initSession language words) s

/-! ### The session invariant -/

/-- Number of pending `speak` commands. -/
def speakPending (pend : List Cmd) : Nat :=
  pend.countP fun c => match c with
    | Cmd.speak _ _ => true
    | _ => false

/-- 1 while a correct answer's dialog is open: in that window
`correctCount` has been incremented but `wordIndex` has not yet. -/
def correctOpen (m : appModel) : Nat :=
  if m.dialogState = DialogState.dialogShowing ∧
     m.dialogType = DialogType.dialogCorrect then 1 else 0

/-- The inductive session invariant: phase discipline for the pending
`speak` command, the input surface and the dialog, and the counting
relation between queue length, correct count, original count and word
index. -/
def Inv (s : Session) : Prop :=
  speakPending s.pending ≤ 1 ∧
  (speakPending s.pending = 1 →
    s.model.showInput = false ∧
    s.model.dialogState = DialogState.dialogHidden ∧
    s.model.wordIndex < s.model.words.length) ∧
  (s.model.showInput = true →
    s.model.dialogState = DialogState.dialogHidden ∧
    s.model.wordIndex < s.model.words.length) ∧
  (s.model.dialogState = DialogState.dialogShowing →
    s.model.showInput = false ∧
    s.model.wordIndex < s.model.words.length) ∧
  s.model.wordIndex ≤ s.model.words.length ∧
  s.model.words.length + s.model.correctCount =
    s.model.originalCount + s.model.wordIndex + correctOpen s.model

theorem speakPending_append (pend : List Cmd) (c : Cmd) :
    speakPending (pend ++ [c]) =
      speakPending pend + speakPending [c] := by
  simp [speakPending, List.countP_append]

@[simp] theorem speakPending_one_speak (w l : String) :
    speakPending [Cmd.speak w l] = 1 := rfl

@[simp] theorem speakPending_one_none : speakPending [Cmd.none] = 0 := rfl

@[simp] theorem speakPending_one_quit : speakPending [Cmd.quit] = 0 := rfl

@[simp] theorem speakPending_one_repeatAudio (w l : String) :
    speakPending [Cmd.repeatAudio w l] = 0 := rfl

@[simp] theorem speakPending_one_validationDone (b : Bool) :
    speakPending [Cmd.validationDone b] = 0 := rfl

theorem speakPending_erase_of_mem (p : List Cmd) (c : Cmd) (hmem : c ∈ p) :
    speakPending p = speakPending [c] + speakPending (p.erase c) := by
  unfold speakPending
  rw [(List.perm_cons_erase hmem).countP_eq]
  simp [List.countP_cons]
  omega

theorem startNextWord_run (m : appModel) (h : m.wordIndex < m.words.length) :
    startNextWord m =
      ({ m with currentWord := m.words.getD m.wordIndex ""
                totalAttempts := m.totalAttempts + 1
                inputText := ""
                inputError := ""
                showInput := false
                waitingForAudio := true
                dialogState := DialogState.dialogHidden },
       Cmd.speak (m.words.getD m.wordIndex "") m.language) := by
  unfold startNextWord
  rw [if_neg (by omega)]

theorem startNextWord_exhausted (m : appModel)
    (h : m.words.length ≤ m.wordIndex) :
    startNextWord m = (m, Cmd.quit) := by
  unfold startNextWord
  rw [if_pos (show m.wordIndex ≥ m.words.length from h)]

theorem handleDialogClose_eq (m : appModel) :
    handleDialogClose m = startNextWord
      { m with dialogState := DialogState.dialogHidden
               dialogMsg := ""
               dialogDiff := Option.none
               words := if m.dialogType = DialogType.dialogIncorrect
                        then m.words ++ [m.currentWord] else m.words
               wordIndex := m.wordIndex + 1 } := by
  unfold handleDialogClose
  by_cases ht : m.dialogType = DialogType.dialogIncorrect <;> simp [ht]

/-- Any transition that leaves the queue, the counters, the input
surface flag and the dialog fields unchanged, and does not add or
remove a pending `speak`, preserves the invariant. -/
theorem inv_same_phase (m : appModel) (p : List Cmd) (hi : Inv ⟨m, p⟩)
    (m' : appModel) (p' : List Cmd)
    (hsp : speakPending p' = speakPending p)
    (hw : m'.words = m.words) (hoc : m'.originalCount = m.originalCount)
    (hwi : m'.wordIndex = m.wordIndex) (hcc : m'.correctCount = m.correctCount)
    (hsi : m'.showInput = m.showInput) (hds : m'.dialogState = m.dialogState)
    (hdt : m'.dialogType = m.dialogType) :
    Inv ⟨m', p'⟩ := by
  obtain ⟨h1, h2, h3, h4, h5, h6⟩ := hi
  have hco : correctOpen m' = correctOpen m := by
    unfold correctOpen
    rw [hds, hdt]
  exact ⟨by rw [hsp]; exact h1,
    fun h => by rw [hw, hwi, hsi, hds]; exact h2 (by rw [← hsp]; exact h),
    fun h => by rw [hw, hwi, hds]; exact h3 (by rw [← hsi]; exact h),
    fun h => by rw [hw, hwi, hsi]; exact h4 (by rw [← hds]; exact h),
    by rw [hw, hwi]; exact h5,
    by rw [hw, hoc, hwi, hcc, hco]; exact h6⟩

/-- `startNextWord` from a closed-dialog, input-hidden state with the
plain counting equation preserves the invariant, whether it starts a
new turn or quits on exhaustion. -/
theorem inv_startNextWord (m3 : appModel) (p : List Cmd)
    (hq : speakPending p = 0)
    (hsi : m3.showInput = false)
    (hdh : m3.dialogState = DialogState.dialogHidden)
    (h5 : m3.wordIndex ≤ m3.words.length)
    (h6 : m3.words.length + m3.correctCount =
      m3.originalCount + m3.wordIndex) :
    Inv ⟨(startNextWord m3).1, p ++ [(startNextWord m3).2]⟩ := by
  by_cases hex : m3.wordIndex < m3.words.length
  · rw [startNextWord_run m3 hex]
    refine ⟨?_, ?_, ?_, ?_, ?_, ?_⟩ <;>
      simp [speakPending_append, hq, hsi, hdh, correctOpen] <;>
      omega
  · rw [startNextWord_exhausted m3 (Nat.not_lt.mp hex)]
    refine ⟨?_, ?_, ?_, ?_, ?_, ?_⟩ <;>
      simp [speakPending_append, hq, hsi, hdh, correctOpen] <;>
      omega

theorem inv_initSession (language : String) (words : List String) :
    Inv (initSession language words) := by
  unfold initSession Inv initCmd startNextWord initialAppModel
  by_cases h : words.length = 0
  · simp [h, speakPending, correctOpen]
  · have hlt : 0 < words.length := Nat.pos_of_ne_zero h
    simp [Nat.not_le.mpr hlt, speakPending, correctOpen, hlt, Nat.le_of_lt hlt]

/-- Closing the dialog from an invariant state preserves the
invariant. -/
theorem inv_close (m : appModel) (p : List Cmd)
    (hq : speakPending p = 0)
    (hd : m.dialogState = DialogState.dialogShowing)
    (hsi : m.showInput = false)
    (hwi : m.wordIndex < m.words.length)
    (h6 : m.words.length + m.correctCount =
      m.originalCount + m.wordIndex + correctOpen m) :
    Inv ⟨(handleDialogClose m).1, p ++ [(handleDialogClose m).2]⟩ := by
  rw [handleDialogClose_eq]
  apply inv_startNextWord _ _ hq
  · exact hsi
  · rfl
  · by_cases ht : m.dialogType = DialogType.dialogIncorrect <;>
      simp [ht] <;> omega
  · by_cases ht : m.dialogType = DialogType.dialogIncorrect
    · have hco : correctOpen m = 0 := by simp [correctOpen, ht]
      simp [ht]
      omega
    · have htc : m.dialogType = DialogType.dialogCorrect := by
        cases hmt : m.dialogType
        · rfl
        · exact absurd hmt ht
      have hco : correctOpen m = 1 := by simp [correctOpen, hd, htc]
      simp [ht]
      omega

/-- Submitting non-blank input from an invariant awaiting-input state
preserves the invariant. -/
theorem inv_validate (m : appModel) (p : List Cmd) (input : String)
    (hq : speakPending p = 0)
    (hd : m.dialogState = DialogState.dialogHidden)
    (hwi : m.wordIndex < m.words.length)
    (h6 : m.words.length + m.correctCount =
      m.originalCount + m.wordIndex + correctOpen m) :
    Inv ⟨(validateInput m input).1, p ++ [(validateInput m input).2]⟩ := by
  have hco : correctOpen m = 0 := by simp [correctOpen, hd]
  rw [hco] at h6
  by_cases hc : input = m.currentWord <;>
    refine ⟨?_, ?_, ?_, ?_, ?_, ?_⟩ <;>
      simp [validateInput, hc, speakPending_append, hq, correctOpen, hwi] <;>
      omega

/-- The key-press branch of `Update` preserves the invariant. -/
theorem inv_updateKey (m : appModel) (p : List Cmd) (k : KeyInput)
    (hi : Inv ⟨m, p⟩) :
    Inv ⟨(updateKey m k).1, p ++ [(updateKey m k).2]⟩ := by
  obtain ⟨h1, h2, h3, h4, h5, h6⟩ := hi
  by_cases hd : m.dialogState = DialogState.dialogShowing
  · by_cases hk : k.str = "enter" ∨ k.str = " "
    · have he : updateKey m k = handleDialogClose m := by
        simp [updateKey, hd, hk]
      rw [he]
      have hq : speakPending p = 0 := by
        rcases Nat.lt_or_ge (speakPending p) 1 with hsp | hsp
        · omega
        · have h2' := h2 (Nat.le_antisymm h1 hsp)
          rw [hd] at h2'
          exact absurd h2'.2.1 (by simp)
      exact inv_close m p hq hd (h4 hd).1 (h4 hd).2 h6
    · by_cases hk2 : k.str = "q" ∨ k.str = "ctrl+c"
      · have he : updateKey m k = (m, Cmd.quit) := by
          simp [updateKey, hd, hk, hk2]
        rw [he]
        exact inv_same_phase m p ⟨h1, h2, h3, h4, h5, h6⟩ m _
          (by simp [speakPending_append]) rfl rfl rfl rfl rfl rfl rfl
      · have he : updateKey m k = (m, Cmd.none) := by
          simp [updateKey, hd, hk, hk2]
        rw [he]
        exact inv_same_phase m p ⟨h1, h2, h3, h4, h5, h6⟩ m _
          (by simp [speakPending_append]) rfl rfl rfl rfl rfl rfl rfl
  · have hdh : m.dialogState = DialogState.dialogHidden := by
      cases hds : m.dialogState
      · rfl
      · exact absurd hds hd
    by_cases hs : m.showInput = true
    · -- input surface is active
      have hq : speakPending p = 0 := by
        rcases Nat.lt_or_ge (speakPending p) 1 with hsp | hsp
        · omega
        · have h2' := h2 (Nat.le_antisymm h1 hsp)
          rw [hs] at h2'
          exact absurd h2'.1 (by simp)
      by_cases hke : k.str = "enter"
      · by_cases hblank : goTrimSpace m.inputText = ""
        · have he : updateKey m k =
              ({ m with inputError := localize "ValidationError" }, Cmd.none) := by
            simp [updateKey, hd, hs, hke, hblank]
          rw [he]
          exact inv_same_phase m p ⟨h1, h2, h3, h4, h5, h6⟩ _ _
            (by simp [speakPending_append]) rfl rfl rfl rfl rfl rfl rfl
        · have he : updateKey m k = validateInput m (goTrimSpace m.inputText) := by
            simp [updateKey, hd, hs, hke, hblank]
          rw [he]
          exact inv_validate m p _ hq hdh (h3 hs).2 h6
      · by_cases hkt : k.str = "tab"
        · have he : updateKey m k = (m, Cmd.repeatAudio m.currentWord m.language) := by
            simp [updateKey, hd, hs, hke, hkt]
          rw [he]
          exact inv_same_phase m p ⟨h1, h2, h3, h4, h5, h6⟩ m _
            (by simp [speakPending_append]) rfl rfl rfl rfl rfl rfl rfl
        · by_cases hkb : k.str = "backspace"
          · by_cases hlen : m.inputText.length > 0
            · have he : updateKey m k =
                  ({ m with inputText := ⟨m.inputText.data.dropLast⟩
                            inputError := "" }, Cmd.none) := by
                simp [updateKey, hd, hs, hke, hkt, hkb, hlen]
              rw [he]
              exact inv_same_phase m p ⟨h1, h2, h3, h4, h5, h6⟩ _ _
                (by simp [speakPending_append]) rfl rfl rfl rfl rfl rfl rfl
            · have he : updateKey m k = (m, Cmd.none) := by
                simp [updateKey, hd, hs, hke, hkt, hkb, hlen]
              rw [he]
              exact inv_same_phase m p ⟨h1, h2, h3, h4, h5, h6⟩ m _
                (by simp [speakPending_append]) rfl rfl rfl rfl rfl rfl rfl
          · by_cases hk2 : k.str = "q" ∨ k.str = "ctrl+c"
            · have he : updateKey m k = (m, Cmd.quit) := by
                simp [updateKey, hd, hs, hke, hkt, hkb, hk2]
              rw [he]
              exact inv_same_phase m p ⟨h1, h2, h3, h4, h5, h6⟩ m _
                (by simp [speakPending_append]) rfl rfl rfl rfl rfl rfl rfl
            · by_cases hr : k.runes.length > 0
              · have he : updateKey m k =
                    ({ m with inputText := m.inputText ++ ⟨k.runes⟩
                              inputError := "" }, Cmd.none) := by
                  simp [updateKey, hd, hs, hke, hkt, hkb, hk2, hr]
                rw [he]
                exact inv_same_phase m p ⟨h1, h2, h3, h4, h5, h6⟩ _ _
                  (by simp [speakPending_append]) rfl rfl rfl rfl rfl rfl rfl
              · have he : updateKey m k = (m, Cmd.none) := by
                  simp [updateKey, hd, hs, hke, hkt, hkb, hk2, hr]
                rw [he]
                exact inv_same_phase m p ⟨h1, h2, h3, h4, h5, h6⟩ m _
                  (by simp [speakPending_append]) rfl rfl rfl rfl rfl rfl rfl
    · have hs' : m.showInput = false := by
        cases hsb : m.showInput
        · rfl
        · exact absurd hsb hs
      by_cases hk2 : k.str = "q" ∨ k.str = "ctrl+c"
      · have he : updateKey m k = (m, Cmd.quit) := by
          simp [updateKey, hd, hs', hk2]
        rw [he]
        exact inv_same_phase m p ⟨h1, h2, h3, h4, h5, h6⟩ m _
          (by simp [speakPending_append]) rfl rfl rfl rfl rfl rfl rfl
      · have he : updateKey m k = (m, Cmd.none) := by
          simp [updateKey, hd, hs', hk2]
        rw [he]
        exact inv_same_phase m p ⟨h1, h2, h3, h4, h5, h6⟩ m _
          (by simp [speakPending_append]) rfl rfl rfl rfl rfl rfl rfl

/-- Delivery of a pending `speak`'s completion message preserves the
invariant. -/
theorem inv_deliver_speak (m : appModel) (p : List Cmd) (w l : String)
    (hmem : Cmd.speak w l ∈ p) (hi : Inv ⟨m, p⟩) :
    Inv (dispatch m (p.erase (Cmd.speak w l)) Msg.speakWordMsg) := by
  obtain ⟨h1, h2, h3, h4, h5, h6⟩ := hi
  have h1' : speakPending p ≤ 1 := h1
  have hcount := speakPending_erase_of_mem p (Cmd.speak w l) hmem
  rw [speakPending_one_speak] at hcount
  have hone : speakPending p = 1 := by omega
  have herase : speakPending (p.erase (Cmd.speak w l)) = 0 := by omega
  obtain ⟨hsi, hdh, hwi⟩ := h2 hone
  have hdh' : m.dialogState = DialogState.dialogHidden := hdh
  have hwi' : m.wordIndex < m.words.length := hwi
  have h5' : m.wordIndex ≤ m.words.length := h5
  have h6' : m.words.length + m.correctCount =
      m.originalCount + m.wordIndex + correctOpen m := h6
  have hco : correctOpen m = 0 := by simp [correctOpen, hdh']
  rw [hco] at h6'
  refine ⟨?_, ?_, ?_, ?_, ?_, ?_⟩ <;>
    simp [dispatch, update, speakPending_append, herase, hdh', hwi',
      correctOpen] <;>
    omega

/-- One event-loop step preserves the invariant. -/
theorem step_preserves_inv (s t : Session) (hst : Step s t) (hi : Inv s) :
    Inv t := by
  obtain ⟨m, p⟩ := s
  cases hst with
  | external msg hext =>
    cases msg with
    | windowSizeMsg w h =>
      exact inv_same_phase m p hi _ _ (by simp [dispatch, update, speakPending_append])
        rfl rfl rfl rfl rfl rfl rfl
    | tuiRepeatAudioMsg => exact absurd hext (by simp [externalMsg])
    | speakWordMsg => exact absurd hext (by simp [externalMsg])
    | validationCompleteMsg b => exact absurd hext (by simp [externalMsg])
    | keyMsg k => exact inv_updateKey m p k hi
  | deliver c msg hc hm =>
    cases c with
    | none => exact absurd hm (by simp [cmdMsg])
    | quit => exact absurd hm (by simp [cmdMsg])
    | speak w l =>
      have hmsg : msg = Msg.speakWordMsg := by
        have := hm
        simp [cmdMsg] at this
        exact this.symm
      rw [hmsg]
      exact inv_deliver_speak m p w l hc hi
    | repeatAudio w l =>
      have hmsg : msg = Msg.tuiRepeatAudioMsg := by
        have := hm
        simp [cmdMsg] at this
        exact this.symm
      rw [hmsg]
      have hcount := speakPending_erase_of_mem p (Cmd.repeatAudio w l) hc
      rw [speakPending_one_repeatAudio] at hcount
      exact inv_same_phase m p hi _ _
        (by simp [dispatch, update, speakPending_append]; omega)
        rfl rfl rfl rfl rfl rfl rfl
    | validationDone b =>
      have hmsg : msg = Msg.validationCompleteMsg b := by
        have := hm
        simp [cmdMsg] at this
        exact this.symm
      rw [hmsg]
      have hcount := speakPending_erase_of_mem p (Cmd.validationDone b) hc
      rw [speakPending_one_validationDone] at hcount
      exact inv_same_phase m p hi _ _
        (by simp [dispatch, update, speakPending_append]; omega)
        rfl rfl rfl rfl rfl rfl rfl

/-- Every reachable session state satisfies the invariant. -/
theorem reachable_inv (language : String) (words : List String)
    (s : Session) (h : Reachable language words s) : Inv s := by
  induction h with
  | refl => exact inv_initSession language words
  | tail _ hstep ih => exact step_preserves_inv _ _ hstep ih

/-! ### Field effects of the transitions -/

/-- The Enter key as seen by `Update` (`msg.String() == "enter"`, no
runes). -/
def keyEnter : KeyInput := ⟨"enter", []⟩

theorem validateInput_fields (m : appModel) (input : String) :
    (validateInput m input).1.words = m.words ∧
    (validateInput m input).1.originalCount = m.originalCount ∧
    (validateInput m input).1.wordIndex = m.wordIndex := by
  by_cases hc : input = m.currentWord <;> simp [validateInput, hc]

theorem startNextWord_fixed (m : appModel) :
    (startNextWord m).1.words = m.words ∧
    (startNextWord m).1.wordIndex = m.wordIndex ∧
    (startNextWord m).1.originalCount = m.originalCount ∧
    (startNextWord m).1.correctCount = m.correctCount := by
  by_cases hex : m.wordIndex < m.words.length
  · rw [startNextWord_run m hex]
    exact ⟨rfl, rfl, rfl, rfl⟩
  · rw [startNextWord_exhausted m (Nat.not_lt.mp hex)]
    exact ⟨rfl, rfl, rfl, rfl⟩

theorem handleDialogClose_fields (m : appModel) :
    (handleDialogClose m).1.originalCount = m.originalCount ∧
    (handleDialogClose m).1.wordIndex = m.wordIndex + 1 ∧
    (handleDialogClose m).1.correctCount = m.correctCount ∧
    (handleDialogClose m).1.words =
      (if m.dialogType = DialogType.dialogIncorrect
       then m.words ++ [m.currentWord] else m.words) := by
  rw [handleDialogClose_eq]
  exact ⟨(startNextWord_fixed _).2.2.1, (startNextWord_fixed _).2.1,
    (startNextWord_fixed _).2.2.2, (startNextWord_fixed _).1⟩

/-- A key press never changes `originalCount`, and it changes the word
list only at dialog close after an incorrect answer, appending exactly
the current word. -/
theorem updateKey_effects (m : appModel) (k : KeyInput) :
    (updateKey m k).1.originalCount = m.originalCount ∧
    ((updateKey m k).1.words = m.words ∨
     ((updateKey m k).1.words = m.words ++ [m.currentWord] ∧
      m.dialogState = DialogState.dialogShowing ∧
      m.dialogType = DialogType.dialogIncorrect ∧
      (updateKey m k).1.wordIndex = m.wordIndex + 1)) := by
  by_cases hd : m.dialogState = DialogState.dialogShowing
  · by_cases hk : k.str = "enter" ∨ k.str = " "
    · have he : updateKey m k = handleDialogClose m := by
        simp [updateKey, hd, hk]
      rw [he]
      obtain ⟨hoc, hwi, _, hw⟩ := handleDialogClose_fields m
      refine ⟨hoc, ?_⟩
      by_cases ht : m.dialogType = DialogType.dialogIncorrect
      · exact Or.inr ⟨by rw [hw, if_pos ht], hd, ht, hwi⟩
      · exact Or.inl (by rw [hw, if_neg ht])
    · by_cases hk2 : k.str = "q" ∨ k.str = "ctrl+c" <;>
      · have he : (updateKey m k).1 = m := by
          simp [updateKey, hd, hk, hk2]
        rw [he]
        exact ⟨rfl, Or.inl rfl⟩
  · by_cases hs : m.showInput = true
    · by_cases hke : k.str = "enter"
      · by_cases hblank : goTrimSpace m.inputText = ""
        · have he : (updateKey m k).1 =
              { m with inputError := localize "ValidationError" } := by
            simp [updateKey, hd, hs, hke, hblank]
          rw [he]
          exact ⟨rfl, Or.inl rfl⟩
        · have he : updateKey m k = validateInput m (goTrimSpace m.inputText) := by
            simp [updateKey, hd, hs, hke, hblank]
          rw [he]
          obtain ⟨hw, hoc, _⟩ := validateInput_fields m (goTrimSpace m.inputText)
          exact ⟨hoc, Or.inl hw⟩
      · by_cases hkt : k.str = "tab"
        · have he : (updateKey m k).1 = m := by
            simp [updateKey, hd, hs, hke, hkt]
          rw [he]
          exact ⟨rfl, Or.inl rfl⟩
        · by_cases hkb : k.str = "backspace"
          · by_cases hlen : m.inputText.length > 0 <;>
            · have he : ((updateKey m k).1.originalCount = m.originalCount ∧
                  (updateKey m k).1.words = m.words) := by
                simp [updateKey, hd, hs, hke, hkt, hkb, hlen]
              exact ⟨he.1, Or.inl he.2⟩
          · by_cases hk2 : k.str = "q" ∨ k.str = "ctrl+c"
            · have he : (updateKey m k).1 = m := by
                simp [updateKey, hd, hs, hke, hkt, hkb, hk2]
              rw [he]
              exact ⟨rfl, Or.inl rfl⟩
            · by_cases hr : k.runes.length > 0 <;>
              · have he : ((updateKey m k).1.originalCount = m.originalCount ∧
                    (updateKey m k).1.words = m.words) := by
                  simp [updateKey, hd, hs, hke, hkt, hkb, hk2, hr]
                exact ⟨he.1, Or.inl he.2⟩
    · have hs' : m.showInput = false := by
        cases hsb : m.showInput
        · rfl
        · exact absurd hsb hs
      by_cases hk2 : k.str = "q" ∨ k.str = "ctrl+c" <;>
      · have he : (updateKey m k).1 = m := by
          simp [updateKey, hd, hs', hk2]
        rw [he]
        exact ⟨rfl, Or.inl rfl⟩

theorem update_effects (m : appModel) (msg : Msg) :
    (update m msg).1.originalCount = m.originalCount ∧
    ((update m msg).1.words = m.words ∨
     (update m msg).1.words = m.words ++ [m.currentWord]) := by
  cases msg with
  | windowSizeMsg w h => exact ⟨rfl, Or.inl rfl⟩
  | tuiRepeatAudioMsg => exact ⟨rfl, Or.inl rfl⟩
  | speakWordMsg => exact ⟨rfl, Or.inl rfl⟩
  | validationCompleteMsg b => exact ⟨rfl, Or.inl rfl⟩
  | keyMsg k =>
    obtain ⟨hoc, hw⟩ := updateKey_effects m k
    refine ⟨hoc, ?_⟩
    rcases hw with hw | hw
    · exact Or.inl hw
    · exact Or.inr hw.1

theorem step_originalCount (s t : Session) (hst : Step s t) :
    t.model.originalCount = s.model.originalCount := by
  cases hst with
  | external msg hext => exact (update_effects s.model msg).1
  | deliver c msg hc hm => exact (update_effects s.model msg).1

theorem step_words_extend (s t : Session) (hst : Step s t) :
    ∃ tail, t.model.words = s.model.words ++ tail := by
  have h : (∀ msg : Msg, ∃ tail,
      (update s.model msg).1.words = s.model.words ++ tail) := by
    intro msg
    rcases (update_effects s.model msg).2 with hw | hw
    · exact ⟨[], by simp [hw]⟩
    · exact ⟨[s.model.currentWord], hw⟩
  cases hst with
  | external msg hext => exact h msg
  | deliver c msg hc hm => exact h msg

theorem reachable_originalCount (language : String) (words : List String)
    (s : Session) (h : Reachable language words s) :
    s.model.originalCount = words.length := by
  induction h with
  | refl => rfl
  | tail _ hstep ih => rw [step_originalCount _ _ hstep]; exact ih

/-- C7: in every reachable session state, `correctCount` is at most
`originalCount`, and `originalCount` is still the word count snapshot
taken at session start — no transition modifies it. -/
theorem correctCount_le_originalCount (language : String)
    (words : List String) (s : Session) (h : Reachable language words s) :
    s.model.correctCount ≤ s.model.originalCount ∧
    s.model.originalCount = words.length := by
  refine ⟨?_, reachable_originalCount language words s h⟩
  obtain ⟨h1, h2, h3, h4, h5, h6⟩ := reachable_inv language words s h
  have h4' : s.model.dialogState = DialogState.dialogShowing →
      s.model.showInput = false ∧
      s.model.wordIndex < s.model.words.length := h4
  have h5' : s.model.wordIndex ≤ s.model.words.length := h5
  have h6' : s.model.words.length + s.model.correctCount =
      s.model.originalCount + s.model.wordIndex + correctOpen s.model := h6
  by_cases hds : s.model.dialogState = DialogState.dialogShowing ∧
      s.model.dialogType = DialogType.dialogCorrect
  · have hco : correctOpen s.model = 1 := by
      unfold correctOpen
      rw [if_pos hds]
    have hwi := (h4' hds.1).2
    rw [hco] at h6'
    omega
  · have hco : correctOpen s.model = 0 := by
      unfold correctOpen
      rw [if_neg hds]
    rw [hco] at h6'
    omega

/-- Witness for C7 at a concrete reachable state. -/
theorem correctCount_le_originalCount_witness :
    Reachable "en" ["Haus"] (initSession "en" ["Haus"]) ∧
    (initSession "en" ["Haus"]).model.correctCount ≤
      (initSession "en" ["Haus"]).model.originalCount :=
  ⟨Relation.ReflTransGen.refl,
   (correctCount_le_originalCount "en" ["Haus"] _
     Relation.ReflTransGen.refl).1⟩

/-- C6: at dialog close, the word just practised is appended to the
tail of the queue exactly once when it was answered incorrectly and not
at all when it was answered correctly, and the index advances past it
in both cases; consequently a step never removes words, and along any
run the count of every word value in the session's list never
decreases (the multiset is conserved — words may be duplicated by
re-queueing but never lost). -/
theorem word_conservation :
    (∀ (m : appModel) (k : KeyInput),
      m.dialogState = DialogState.dialogShowing →
      (k.str = "enter" ∨ k.str = " ") →
      ((m.dialogType = DialogType.dialogIncorrect →
        (update m (Msg.keyMsg k)).1.words = m.words ++ [m.currentWord]) ∧
       (m.dialogType = DialogType.dialogCorrect →
        (update m (Msg.keyMsg k)).1.words = m.words) ∧
       (update m (Msg.keyMsg k)).1.wordIndex = m.wordIndex + 1)) ∧
    (∀ s t : Session, Step s t →
      ∃ tail, t.model.words = s.model.words ++ tail) ∧
    (∀ s t : Session, Relation.ReflTransGen Step s t →
      ∀ w : String, s.model.words.count w ≤ t.model.words.count w) := by
  refine ⟨?_, step_words_extend, ?_⟩
  · intro m k hd hk
    have he : update m (Msg.keyMsg k) = handleDialogClose m := by
      simp [update, updateKey, hd, hk]
    rw [he]
    obtain ⟨_, hwi, _, hw⟩ := handleDialogClose_fields m
    refine ⟨?_, ?_, hwi⟩
    · intro ht
      rw [hw, if_pos ht]
    · intro ht
      rw [hw, if_neg (by rw [ht]; exact (by simp))]
  · intro s t h w
    induction h with
    | refl => exact Nat.le_refl _
    | tail _ hstep ih =>
      obtain ⟨tail, htail⟩ := step_words_extend _ _ hstep
      rw [htail, List.count_append]
      omega

/-- A model in the incorrect-answer dialog, used to witness C6. -/
def mDialog : appModel :=
  { initialAppModel "en" ["Haus", "Buch"] with
    dialogState := DialogState.dialogShowing
    dialogType := DialogType.dialogIncorrect
    currentWord := "Buch" }

/-- Witness for C6 at a concrete input: closing the incorrect-answer
dialog on `mDialog` appends the current word once and advances the
index. -/
theorem word_conservation_witness :
    (mDialog.dialogState = DialogState.dialogShowing ∧
     mDialog.dialogType = DialogType.dialogIncorrect) ∧
    (update mDialog (Msg.keyMsg keyEnter)).1.words = ["Haus", "Buch", "Buch"] ∧
    (update mDialog (Msg.keyMsg keyEnter)).1.wordIndex = 1 := by
  have h := word_conservation.1 mDialog keyEnter rfl (Or.inl rfl)
  exact ⟨⟨rfl, rfl⟩, by rw [h.1 rfl]; rfl, by rw [h.2.2]; rfl⟩

/-- C1: submitting non-blank text while awaiting input compares it to
the current word by exact value equality; when equal, `correctCount`
is incremented and the word is appended to `correctWords` (no diff);
when different, a diff is built by the DiffEngine and the counters are
unchanged; either way the dialog opens. -/
theorem submit_validates (m : appModel) (input : String)
    (hs : m.showInput = true)
    (hd : m.dialogState = DialogState.dialogHidden)
    (htrim : goTrimSpace m.inputText = input)
    (hne : input ≠ "") :
    (input = m.currentWord →
      (update m (Msg.keyMsg keyEnter)).1.correctCount = m.correctCount + 1 ∧
      (update m (Msg.keyMsg keyEnter)).1.correctWords =
        m.correctWords ++ [m.currentWord] ∧
      (update m (Msg.keyMsg keyEnter)).1.dialogType =
        DialogType.dialogCorrect ∧
      (update m (Msg.keyMsg keyEnter)).1.dialogDiff = Option.none) ∧
    (input ≠ m.currentWord →
      (update m (Msg.keyMsg keyEnter)).1.dialogDiff =
        some (formatWordDiff input m.currentWord) ∧
      (update m (Msg.keyMsg keyEnter)).1.correctCount = m.correctCount ∧
      (update m (Msg.keyMsg keyEnter)).1.correctWords = m.correctWords ∧
      (update m (Msg.keyMsg keyEnter)).1.dialogType =
        DialogType.dialogIncorrect) ∧
    (update m (Msg.keyMsg keyEnter)).1.dialogState =
      DialogState.dialogShowing := by
  have he : update m (Msg.keyMsg keyEnter) = validateInput m input := by
    simp [update, updateKey, keyEnter, hd, hs, htrim, hne]
  rw [he]
  refine ⟨?_, ?_, ?_⟩
  · intro hc
    simp [validateInput, hc]
  · intro hc
    simp [validateInput, hc]
  · by_cases hc : input = m.currentWord <;> simp [validateInput, hc]

/-- A model about to submit a misspelled word, used to witness C1. -/
def mSubmit : appModel :=
  { initialAppModel "en" ["Haus"] with
    currentWord := "Haus"
    inputText := "Hauss"
    showInput := true }

/-- Witness for C1 at a concrete input: submitting `"Hauss"` for the
word `"Haus"` opens the incorrect dialog with the DiffEngine's diff and
leaves the counters unchanged. -/
theorem submit_validates_witness :
    (mSubmit.showInput = true ∧ goTrimSpace mSubmit.inputText = "Hauss") ∧
    (update mSubmit (Msg.keyMsg keyEnter)).1.dialogDiff =
      some (formatWordDiff "Hauss" "Haus") ∧
    (update mSubmit (Msg.keyMsg keyEnter)).1.correctCount = 0 ∧
    (update mSubmit (Msg.keyMsg keyEnter)).1.dialogState =
      DialogState.dialogShowing := by
  have h := submit_validates mSubmit "Hauss" rfl rfl (by decide) (by decide)
  have h2 := h.2.1 (by decide)
  exact ⟨⟨rfl, by decide⟩, h2.1, h2.2.1, h.2.2⟩

/-- C5: a blank or whitespace-only submission while awaiting input sets
only the validation error message: the current word, index, queue,
counters, correct-word list and dialog state are untouched, the input
surface stays active, and no turn is consumed. -/
theorem blank_submission (m : appModel)
    (hs : m.showInput = true)
    (hd : m.dialogState = DialogState.dialogHidden)
    (hblank : goTrimSpace m.inputText = "") :
    (update m (Msg.keyMsg keyEnter)).1.currentWord = m.currentWord ∧
    (update m (Msg.keyMsg keyEnter)).1.wordIndex = m.wordIndex ∧
    (update m (Msg.keyMsg keyEnter)).1.words = m.words ∧
    (update m (Msg.keyMsg keyEnter)).1.correctCount = m.correctCount ∧
    (update m (Msg.keyMsg keyEnter)).1.correctWords = m.correctWords ∧
    (update m (Msg.keyMsg keyEnter)).1.dialogState = m.dialogState ∧
    (update m (Msg.keyMsg keyEnter)).1.totalAttempts = m.totalAttempts ∧
    (update m (Msg.keyMsg keyEnter)).1.showInput = true ∧
    (update m (Msg.keyMsg keyEnter)).1.inputError = localize "ValidationError" ∧
    (update m (Msg.keyMsg keyEnter)).1.inputError ≠ "" ∧
    (update m (Msg.keyMsg keyEnter)).2 = Cmd.none := by
  have he : update m (Msg.keyMsg keyEnter) =
      ({ m with inputError := localize "ValidationError" }, Cmd.none) := by
    simp [update, updateKey, keyEnter, hd, hs, hblank]
  rw [he]
  exact ⟨rfl, rfl, rfl, rfl, rfl, rfl, rfl, hs, rfl, by simp [localize], rfl⟩

/-- A model holding a whitespace-only submission, used to witness
C5. -/
def mBlank : appModel :=
  { initialAppModel "en" ["Haus"] with
    currentWord := "Haus"
    inputText := "   "
    showInput := true }

/-- Witness for C5 at a concrete input: submitting `"   "` reports the
validation error and changes nothing else. -/
theorem blank_submission_witness :
    (mBlank.showInput = true ∧ goTrimSpace mBlank.inputText = "") ∧
    (update mBlank (Msg.keyMsg keyEnter)).1.wordIndex = mBlank.wordIndex ∧
    (update mBlank (Msg.keyMsg keyEnter)).1.showInput = true ∧
    (update mBlank (Msg.keyMsg keyEnter)).1.inputError ≠ "" := by
  have h := blank_submission mBlank rfl rfl (by decide)
  exact ⟨⟨rfl, by decide⟩, h.2.1, h.2.2.2.2.2.2.2.1, h.2.2.2.2.2.2.2.2.2.1⟩

/-- C10: the submitted text is trimmed of leading and trailing
whitespace before both the correctness comparison and the diff: the
submission is judged correct exactly when the trimmed text equals the
current word, and an incorrect submission's diff is computed from the
trimmed text. -/
theorem submit_uses_trimmed_input (m : appModel)
    (hs : m.showInput = true)
    (hd : m.dialogState = DialogState.dialogHidden)
    (hne : goTrimSpace m.inputText ≠ "") :
    ((update m (Msg.keyMsg keyEnter)).1.dialogType =
        DialogType.dialogCorrect ↔
      goTrimSpace m.inputText = m.currentWord) ∧
    (goTrimSpace m.inputText = m.currentWord →
      (update m (Msg.keyMsg keyEnter)).1.correctCount = m.correctCount + 1) ∧
    (goTrimSpace m.inputText ≠ m.currentWord →
      (update m (Msg.keyMsg keyEnter)).1.dialogDiff =
        some (formatWordDiff (goTrimSpace m.inputText) m.currentWord)) := by
  have h := submit_validates m (goTrimSpace m.inputText) hs hd rfl hne
  refine ⟨⟨?_, ?_⟩, ?_, ?_⟩
  · intro hdt
    by_cases hc : goTrimSpace m.inputText = m.currentWord
    · exact hc
    · rw [(h.2.1 hc).2.2.2] at hdt
      exact absurd hdt (by simp)
  · intro hc
    exact (h.1 hc).2.2.1
  · intro hc
    exact (h.1 hc).1
  · intro hc
    exact (h.2.1 hc).1

/-- A model whose input is the current word surrounded by whitespace,
used to witness C10. -/
def mTrim : appModel :=
  { initialAppModel "en" ["Haus"] with
    currentWord := "Haus"
    inputText := " Haus "
    showInput := true }

/-- Witness for C10 at a concrete input: submitting `" Haus "` for the
word `"Haus"` is judged correct. -/
theorem submit_uses_trimmed_input_witness :
    (mTrim.showInput = true ∧ goTrimSpace mTrim.inputText = "Haus" ∧
     mTrim.currentWord = "Haus") ∧
    (update mTrim (Msg.keyMsg keyEnter)).1.dialogType =
      DialogType.dialogCorrect ∧
    (update mTrim (Msg.keyMsg keyEnter)).1.correctCount = 1 := by
  have h := submit_uses_trimmed_input mTrim rfl rfl (by decide)
  exact ⟨⟨rfl, by decide, rfl⟩, h.1.mpr (by decide), h.2.1 (by decide)⟩

/-! ### The first turn after `Init`

`Init` (src/tui.go lines 108-112) has a value receiver and calls
`startNextWord` on a local copy, so the running model never receives
`currentWord`, and the first submission is validated against the empty
string.  The trace below drives a fresh two-word session through
audio completion, typing exactly the first word of the list, and
submitting — and lands in the incorrect-answer dialog with
`correctCount = 0`.  Because the still-empty current word is then
re-queued and a blank submission is always rejected, a session with a
non-empty word list can never drain its queue. -/

def c8Words : List String := ["Haus", "Buch"]

def c8s0 : Session := initSession "en" c8Words

def c8s1 : Session :=
  dispatch c8s0.model (c8s0.pending.erase (Cmd.speak "Haus" "en"))
    Msg.speakWordMsg

def c8s2 : Session := dispatch c8s1.model c8s1.pending (Msg.keyMsg ⟨"H", ['H']⟩)

def c8s3 : Session := dispatch c8s2.model c8s2.pending (Msg.keyMsg ⟨"a", ['a']⟩)

def c8s4 : Session := dispatch c8s3.model c8s3.pending (Msg.keyMsg ⟨"u", ['u']⟩)

def c8s5 : Session := dispatch c8s4.model c8s4.pending (Msg.keyMsg ⟨"s", ['s']⟩)

def c8s6 : Session := dispatch c8s5.model c8s5.pending (Msg.keyMsg keyEnter)

/-- C8 evidence: in a fresh session over `["Haus", "Buch"]`, after
audio completion the user types exactly `"Haus"` — the first word of
the list, the one `Init`'s command speaks — and submits; the submission
is judged incorrect (the model's current word is still empty, because
`Init` mutated only a discarded copy) and `correctCount` stays 0. -/
theorem init_discards_first_word :
    Reachable "en" c8Words c8s6 ∧
    c8s5.model.inputText = "Haus" ∧
    c8Words.getD 0 "" = "Haus" ∧
    c8s6.model.dialogType = DialogType.dialogIncorrect ∧
    c8s6.model.correctCount = 0 ∧
    c8s6.model.currentWord = "" := by
  refine ⟨?_, by decide, rfl, by decide, by decide, by decide⟩
  have h1 : Step c8s0 c8s1 :=
    Step.deliver c8s0 (Cmd.speak "Haus" "en") Msg.speakWordMsg (by decide) rfl
  have h2 : Step c8s1 c8s2 := Step.external c8s1 (Msg.keyMsg ⟨"H", ['H']⟩) rfl
  have h3 : Step c8s2 c8s3 := Step.external c8s2 (Msg.keyMsg ⟨"a", ['a']⟩) rfl
  have h4 : Step c8s3 c8s4 := Step.external c8s3 (Msg.keyMsg ⟨"u", ['u']⟩) rfl
  have h5 : Step c8s4 c8s5 := Step.external c8s4 (Msg.keyMsg ⟨"s", ['s']⟩) rfl
  have h6 : Step c8s5 c8s6 := Step.external c8s5 (Msg.keyMsg keyEnter) rfl
  exact Relation.ReflTransGen.tail
    (Relation.ReflTransGen.tail
      (Relation.ReflTransGen.tail
        (Relation.ReflTransGen.tail
          (Relation.ReflTransGen.tail
            (Relation.ReflTransGen.tail Relation.ReflTransGen.refl h1) h2)
          h3) h4) h5) h6

end Dictation
